import Mathlib

/-
Verification of the privilege-boundary enforcement and execution subsystem of
the codex-action repository.

The definitions below are a shallow embedding of the TypeScript sources:
  - main.ts            (safety-strategy token validation)
  - runCodexExec.ts    (execution orchestrator, temp-resource lifecycle,
                        command composition, sandbox-mode resolution)
  - dropSudo.ts        (two-phase privilege revocation, sudoers file rewriting)
Machine-level effects (filesystem, subprocesses) are made explicit: stateful
operations produce an event trace, fallible operations return Except/Option,
and external outcomes (spawn results, file readability) are oracle parameters.
-/

/- A single-quote character, used when reproducing source message strings. -/
def apos : String := String.singleton (Char.ofNat 39)

/- SafetyStrategy from runCodexExec.ts.  The source token "unsafe" is a Lean
keyword, so its constructor carries a trailing underscore; the string token it
stands for is still "unsafe" (see SafetyStrategy.token). -/
inductive SafetyStrategy
  | drop_sudo
  | read_only
  | unprivileged_user
  | unsafe_
deriving DecidableEq, Repr

def SafetyStrategy.token : SafetyStrategy → String
  | .drop_sudo => "drop_sudo"
  | .read_only => "read_only"
  | .unprivileged_user => "unprivileged_user"
  | .unsafe_ => "unsafe"

/- SandboxMode from runCodexExec.ts. -/
inductive SandboxMode
  | read_only
  | workspace_write
  | danger_full_access
deriving DecidableEq, Repr

def SandboxMode.token : SandboxMode → String
  | .read_only => "read-only"
  | .workspace_write => "workspace-write"
  | .danger_full_access => "danger-full-access"

/- Operating systems distinguished by the program (process.platform values
"linux", "darwin", "win32"). -/
inductive RunnerOS
  | linux
  | darwin
  | windows
deriving DecidableEq, Repr

/- Error message of main.ts toSafetyStrategy for an unknown token. -/
def invalidStrategyMessage (value : String) : String :=
  "Invalid safety strategy: " ++ value ++ ". Must be one of " ++
    apos ++ "drop_sudo" ++ apos ++ ", " ++ apos ++ "read_only" ++ apos ++ ", " ++
    apos ++ "unprivileged_user" ++ apos ++ ", or " ++ apos ++ "unsafe" ++ apos ++ "."

/- toSafetyStrategy from main.ts: the switch over the four accepted tokens. -/
def toSafetyStrategy (value : String) : Except String SafetyStrategy :=
  if value = "drop_sudo" then .ok .drop_sudo
  else if value = "read_only" then .ok .read_only
  else if value = "unprivileged_user" then .ok .unprivileged_user
  else if value = "unsafe" then .ok .unsafe_
  else .error (invalidStrategyMessage value)

/- Message of the OS-compatibility rejection, naming the rejected value and
the Windows constraint. -/
def windowsStrategyMessage (value : String) : String :=
  "Safety strategy " ++ apos ++ value ++ apos ++
    " is not supported on Windows; only " ++ apos ++ "unsafe" ++ apos ++
    " is supported."

/-- Modelled from the spec: the OS-compatibility rule of safety-strategy
validation ("On the Windows target, only unsafe is accepted; any other value
fails immediately, before any subprocess runs, with an error naming the
rejected value and the OS constraint. On Unix-like targets all four are
accepted.").  The action-level check that enforces this rule is part of the
repository but not under src/; only the token switch (toSafetyStrategy) is.
Validation is pure: it spawns no subprocess and produces no event. -/
def validateSafetyStrategy (os : RunnerOS) (value : String) :
    Except String SafetyStrategy :=
  match os with
  | .windows =>
    if value = "unsafe" then .ok .unsafe_
    else .error (windowsStrategyMessage value)
  | .linux => toSafetyStrategy value
  | .darwin => toSafetyStrategy value

/- determineSandboxMode from runCodexExec.ts. -/
def determineSandboxMode (safetyStrategy : SafetyStrategy)
    (requestedSandbox : SandboxMode) : SandboxMode :=
  if safetyStrategy = SafetyStrategy.read_only then SandboxMode.read_only
  else requestedSandbox

/-
Sudoers text transformation (dropSudo.ts stripUserEntriesFromFile).
File contents are lists of characters; the JavaScript string operations are
embedded one level down: split(/\r?\n/), trimStart(), startsWith("#"),
split(/\s+/)[0], Array.join(newline).
-/

/- Whitespace of the JavaScript \s class and of String.prototype.trimStart. -/
def jsWs (c : Char) : Bool :=
  c = ' ' || c = '\t' || c = '\n' || c = '\r' ||
  c = Char.ofNat 0x0B || c = Char.ofNat 0x0C || c = Char.ofNat 0xA0 ||
  c = Char.ofNat 0x1680 ||
  (0x2000 ≤ c.toNat && c.toNat ≤ 0x200A) ||
  c = Char.ofNat 0x2028 || c = Char.ofNat 0x2029 || c = Char.ofNat 0x202F ||
  c = Char.ofNat 0x205F || c = Char.ofNat 0x3000 || c = Char.ofNat 0xFEFF

/- Prepend a character to the first piece of a split result. -/
def consHead (c : Char) : List (List Char) → List (List Char)
  | [] => [[c]]
  | l :: ls => (c :: l) :: ls

/- original.split(/\r?\n/): break at each "\n", consuming one "\r" directly
before it when present. -/
def splitRN : List Char → List (List Char)
  | [] => [[]]
  | '\n' :: rest => [] :: splitRN rest
  | '\r' :: '\n' :: rest => [] :: splitRN rest
  | c :: rest => consHead c (splitRN rest)

/- Drop a single trailing carriage return, if present. -/
def stripCr (l : List Char) : List Char :=
  if l.getLast? = some '\r' then l.dropLast else l

/- rawLines after the pop of a trailing empty piece:
if (rawLines.length > 0 && rawLines[rawLines.length - 1] === "") pop(). -/
def toLines (cs : List Char) : List (List Char) :=
  let ls := splitRN cs
  if ls.getLast? = some [] then ls.dropLast else ls

/- original.includes("\r\n") -/
def hasCRLF : List Char → Bool
  | [] => false
  | '\r' :: '\n' :: _ => true
  | _ :: rest => hasCRLF rest

/- The loop body of stripUserEntriesFromFile, deciding whether a line is kept:
comment lines (first non-whitespace character #) are kept, blank lines are
kept, a line whose first whitespace-delimited token equals the user is
dropped, everything else is kept. -/
def keepLine (user : String) (l : List Char) : Bool :=
  let t := l.dropWhile jsWs
  if t.head? = some '#' then true
  else if t.isEmpty then true
  else !(t.takeWhile (fun c => !(jsWs c)) == user.data)

/- filteredLines.join(newline) (JavaScript Array.prototype.join). -/
def joinWith (sep : List Char) : List (List Char) → List Char
  | [] => []
  | [l] => l
  | l :: ls => l ++ sep ++ joinWith sep ls

/- The pure text transformation of stripUserEntriesFromFile: detect the
newline style and trailing-newline presence, split into lines, drop the
matching lines, and rebuild; null (none) when nothing was removed. -/
def stripUserEntriesPure (content : List Char) (user : String) :
    Option (List Char) :=
  let newline : List Char := if hasCRLF content then ['\r', '\n'] else ['\n']
  -- original.endsWith("\n") || original.endsWith("\r\n"); the second
  -- disjunct is subsumed by the first.
  let endsWithNewline := content.getLast? = some '\n'
  let rawLines := toLines content
  let filteredLines := rawLines.filter (keepLine user)
  let changed := rawLines.any (fun l => !(keepLine user l))
  if changed then
    some (joinWith newline filteredLines ++
          (if endsWithNewline then newline else []))
  else none

/- stripUserEntriesFromFile including its filesystem interactions.  disk is
the outcome of stat+readFile (none when either throws), giving the content and
the stat mode; writeOk is the outcome of writeFile+chmod.  Both failure paths
are swallowed into the null result, exactly as the two try/catch blocks of the
source do.  On success the on-disk mode is the chmod argument
stats.mode & 0o777, and the rewritten content is returned as the changed
outcome (the source returns a log message). -/
def stripUserEntriesFromFile (disk : Option (List Char × Nat))
    (writeOk : Bool) (user : String) : Option (List Char × Nat) :=
  match disk with
  | none => none
  | some (original, mode) =>
    match stripUserEntriesPure original user with
    | none => none
    | some rebuilt =>
      if writeOk then some (rebuilt, mode &&& 0o777) else none

/-
Drop-sudo root phase (dropSudo.ts dropSudoWithPrivileges).
Subprocess probes (id -nG, command -v) and filesystem outcomes are oracle
fields; the commands the phase would execute are returned as data.
-/

/- Outcomes of the environment probes used by the Linux/macOS group step. -/
structure GroupEnv where
  userInGroup : Bool
  hasDeluser : Bool
  hasGpasswd : Bool
deriving DecidableEq, Repr

/- One file of /etc/sudoers.d (or /etc/sudoers itself): its path, the
stat+read outcome, and whether a rewrite would succeed. -/
structure DiskFile where
  name : String
  disk : Option (List Char × Nat)
  writeOk : Bool

/- removeUserFromSudoersD: enumerate the directory (none models ENOENT,
yielding no messages) and collect a message for every file that was changed. -/
def removeUserFromSudoersD (dirFiles : Option (List DiskFile))
    (user : String) : List String :=
  match dirFiles with
  | none => []
  | some files =>
    files.filterMap (fun f =>
      (stripUserEntriesFromFile f.disk f.writeOk user).map
        (fun _ => "Removed " ++ user ++ " entry from " ++ f.name))

/- The platform-specific group-membership removal step (the switch on
process.platform inside dropSudoWithPrivileges).  Returns the mutation
commands that were executed and whether a membership change occurred. -/
def groupRemovalStep (platform : RunnerOS) (user group : String)
    (env : GroupEnv) : Except String (List (String × List String) × Bool) :=
  match platform with
  | .linux =>
    if env.userInGroup then
      if env.hasDeluser then
        .ok ([("deluser", [user, group])], true)
      else if env.hasGpasswd then
        .ok ([("gpasswd", ["-d", user, group])], true)
      else
        .error "Neither deluser nor gpasswd available."
    else
      .ok ([], false)
  | .darwin =>
    if env.userInGroup then
      .ok ([("dseditgroup",
             ["-o", "edit", "-d", user, "-t", "user", group])], true)
    else
      .ok ([], false)
  | .windows =>
    .error "Unsupported OS for drop-sudo safety strategy: win32"

/- Result of the root phase: the group-mutation commands that ran, whether
group membership changed, the per-file change messages for /etc/sudoers.d,
whether /etc/sudoers changed, and the aggregate changed flag.  The trailing
log-only group query (id -Gn) is not part of the result. -/
structure RootPhaseResult where
  groupCmds : List (String × List String)
  groupChanged : Bool
  sudoersDMessages : List String
  etcSudoersChanged : Bool
  changed : Bool

/- The guard: typeof process.getuid === "function" && process.getuid() !== 0.
uid = none models a platform without getuid. -/
def rootUidBlocked (uid : Option Nat) : Bool :=
  match uid with
  | some u => u != 0
  | none => false

/- dropSudoWithPrivileges from dropSudo.ts. -/
def dropSudoWithPrivileges (uid : Option Nat) (platform : RunnerOS)
    (user group : String) (env : GroupEnv)
    (sudoersD : Option (List DiskFile)) (etcSudoers : DiskFile) :
    Except String RootPhaseResult :=
  if rootUidBlocked uid then
    .error "drop-sudo root phase must run as root."
  else
    match groupRemovalStep platform user group env with
    | .error e => .error e
    | .ok (cmds, grpChanged) =>
      let msgs := removeUserFromSudoersD sudoersD user
      let etcChanged :=
        (stripUserEntriesFromFile etcSudoers.disk etcSudoers.writeOk
          user).isSome
      .ok { groupCmds := cmds
            groupChanged := grpChanged
            sudoersDMessages := msgs
            etcSudoersChanged := etcChanged
            changed := grpChanged || !msgs.isEmpty || etcChanged }

/-
Execution orchestrator (runCodexExec.ts).  Filesystem and process effects are
recorded as an event trace; the names mkdtemp would generate are made
deterministic from the template.
-/

inductive PromptSource
  | inlineText (content : String)
  | file (path : String)
deriving DecidableEq, Repr

inductive OutputSchemaSource
  | file (path : String)
  | inlineText (content : String)
deriving DecidableEq, Repr

inductive OutputFile
  | explicit (file : String)
  | temp (file : String)
deriving DecidableEq, Repr

def OutputFile.file : OutputFile → String
  | .explicit f => f
  | .temp f => f

inductive ResolvedOutputSchema
  | explicit (file : String)
  | temp (file : String) (dir : String)
deriving DecidableEq, Repr

def ResolvedOutputSchema.file : ResolvedOutputSchema → String
  | .explicit f => f
  | .temp f _ => f

/- Events observable outside the orchestrator. -/
inductive FsEvent
  | mkdtemp (tpl : String) (dir : String)
  | writeFile (path : String) (content : String)
  | readFile (path : String)
  | spawnProc (program : String) (args : List String)
  | rmrf (path : String)
  | setOutput (key : String) (value : String)
deriving DecidableEq, Repr

/- Deterministic stand-in for the directory name mkdtemp returns. -/
def tempName (tpl : String) : String := tpl ++ "XXXXXX"

/- path.dirname: the path up to (and excluding) the final separator, "."
when the path has no separator. -/
def dirname (p : String) : String :=
  let rev := p.data.reverse
  if rev.contains '/' then
    String.mk (((rev.dropWhile (fun c => c ≠ '/')).drop 1).reverse)
  else "."

/- Errors the orchestrator can produce. -/
inductive ExecError
  | missingCodexUser
  | spawnFailed
  | nonZeroExit (code : Int)
  | finalReadError
deriving DecidableEq, Repr

def ExecError.message : ExecError → String
  | .missingCodexUser =>
    "codexUser must be specified when using the " ++ apos ++
      "unprivileged_user" ++ apos ++ " safety strategy."
  | .spawnFailed => "spawn error"
  | .nonZeroExit code => "codex exited with code " ++ toString code
  | .finalReadError => "failed to read the output file"

/- Outcome of spawning the composed command, an oracle input. -/
inductive SpawnOutcome
  | spawnErr
  | exited (code : Int)
deriving DecidableEq, Repr

/- External outcomes the orchestrator reacts to: the spawn result and the
content of the output file at the final read (none = the read throws). -/
structure ExecOracle where
  spawnOutcome : SpawnOutcome
  readFinal : Option String
deriving DecidableEq, Repr

/- Arguments of runCodexExec. -/
structure ExecArgs where
  prompt : PromptSource
  codexHome : Option String
  cd : String
  proxyPort : Nat
  extraArgs : List String
  explicitOutputFile : Option String
  outputSchema : Option OutputSchemaSource
  model : Option String
  safetyStrategy : SafetyStrategy
  codexUser : Option String
  sandbox : SandboxMode
deriving DecidableEq, Repr

/- createTempOutputFile: mkdtemp("codex-exec-") and the fixed file name
inside it. -/
def createTempOutputFile : OutputFile × List FsEvent :=
  let dir := tempName "codex-exec-"
  (OutputFile.temp (dir ++ "/" ++ "output.md"),
   [FsEvent.mkdtemp "codex-exec-" dir])

/- resolveOutputSchema: explicit path passed through, inline content
materialized into a fresh temp directory. -/
def resolveOutputSchema : Option OutputSchemaSource →
    Option ResolvedOutputSchema × List FsEvent
  | none => (none, [])
  | some (.file p) => (some (.explicit p), [])
  | some (.inlineText c) =>
    let dir := tempName "codex-output-schema-"
    let f := dir ++ "/" ++ "schema.json"
    (some (.temp f dir),
     [FsEvent.mkdtemp "codex-output-schema-" dir, FsEvent.writeFile f c])

/- cleanupTempOutput: rm -rf of the containing directory for a temporary
output, nothing for an explicit one. -/
def cleanupTempOutput : OutputFile → List FsEvent
  | .explicit _ => []
  | .temp f => [FsEvent.rmrf (dirname f)]

/- cleanupOutputSchema: rm -rf of the temp directory when one was
allocated. -/
def cleanupOutputSchema : Option ResolvedOutputSchema → List FsEvent
  | none => []
  | some (.explicit _) => []
  | some (.temp _ dir) => [FsEvent.rmrf dir]

/- The --config model_providers.openai-proxy=... argument. -/
def providerConfigArg (proxyPort : Nat) : String :=
  "model_providers.openai-proxy=\x7b name = \"OpenAI Proxy\", base_url = " ++
    "\"http://127.0.0.1:" ++ toString proxyPort ++ "/v1\", wire_api = " ++
    "\"responses\" \x7d"

def modelProviderArg : String := "model_provider=\"openai-proxy\""

/- Command composition of runCodexExec (the pushes between the codexUser
check and the spawn).  The missing-user error is raised here, as in the
source, after the output and schema targets were already resolved. -/
def composeCommand (a : ExecArgs) (outputFile : OutputFile)
    (schema : Option ResolvedOutputSchema) (sandboxMode : SandboxMode) :
    Except ExecError (List String) :=
  match a.safetyStrategy, a.codexUser with
  | .unprivileged_user, none => .error .missingCodexUser
  | _, _ =>
    let sudoPart : List String :=
      match a.safetyStrategy, a.codexUser with
      | .unprivileged_user, some u => ["sudo", "-u", u, "--"]
      | _, _ => []
    let base : List String :=
      ["codex", "exec", "--skip-git-repo-check", "--cd", a.cd,
       "--config", providerConfigArg a.proxyPort,
       "--config", modelProviderArg,
       "--output-last-message", outputFile.file]
    let schemaPart : List String :=
      match schema with
      | some s => ["--output-schema", s.file]
      | none => []
    let modelPart : List String :=
      match a.model with
      | some m => ["--model", m]
      | none => []
    .ok (sudoPart ++ base ++ schemaPart ++ modelPart ++ a.extraArgs ++
         ["--sandbox", sandboxMode.token])

/- finalizeExecution: read the output file and publish it; the try/finally
deletes a temporary output on the success path and on the read-failure path
alike. -/
def finalizeExecution (readFinal : Option String) (outputFile : OutputFile) :
    Except ExecError Unit × List FsEvent :=
  match readFinal with
  | some msg =>
    (Except.ok (),
     [FsEvent.readFile outputFile.file,
      FsEvent.setOutput "final_message" msg] ++ cleanupTempOutput outputFile)
  | none =>
    (Except.error ExecError.finalReadError,
     [FsEvent.readFile outputFile.file] ++ cleanupTempOutput outputFile)

/- runCodexExec from runCodexExec.ts: resolve the prompt, the output target,
the schema target and the sandbox mode; compose the command; spawn it; on a
zero exit read the final message; the try/finally around the spawn promise
deletes an allocated schema temp on every spawn path, while the composition
error path returns before that try/finally is entered. -/
def runCodexExec (a : ExecArgs) (o : ExecOracle) :
    Except ExecError Unit × List FsEvent :=
  let promptEv : List FsEvent :=
    match a.prompt with
    | .inlineText _ => []
    | .file p => [FsEvent.readFile p]
  let outAlloc : OutputFile × List FsEvent :=
    match a.explicitOutputFile with
    | some f => (OutputFile.explicit f, [])
    | none => createTempOutputFile
  let outputFile := outAlloc.1
  let schemaAlloc := resolveOutputSchema a.outputSchema
  let schema := schemaAlloc.1
  let sandboxMode := determineSandboxMode a.safetyStrategy a.sandbox
  match composeCommand a outputFile schema sandboxMode with
  | .error e => (Except.error e, promptEv ++ outAlloc.2 ++ schemaAlloc.2)
  | .ok cmd =>
    let spawnEv : List FsEvent := [FsEvent.spawnProc (cmd.headD "") cmd.tail]
    let run : Except ExecError Unit × List FsEvent :=
      match o.spawnOutcome with
      | .spawnErr => (Except.error ExecError.spawnFailed, [])
      | .exited code =>
        if code ≠ 0 then (Except.error (ExecError.nonZeroExit code), [])
        else finalizeExecution o.readFinal outputFile
    (run.1,
     promptEv ++ outAlloc.2 ++ schemaAlloc.2 ++ spawnEv ++ run.2 ++
       cleanupOutputSchema schema)

/- Event classifier used by the cleanup statements. -/
def isRmEvent : FsEvent → Bool
  | .rmrf _ => true
  | _ => false

/- Concrete scenario: temporary output allocation, no schema, agent exits
non-zero. -/
def nonZeroExitScenario : ExecArgs :=
  { prompt := PromptSource.inlineText "p", codexHome := none, cd := ".",
    proxyPort := 3000, extraArgs := [], explicitOutputFile := none,
    outputSchema := none, model := none,
    safetyStrategy := SafetyStrategy.read_only, codexUser := none,
    sandbox := SandboxMode.workspace_write }

def nonZeroExitOracle : ExecOracle :=
  { spawnOutcome := SpawnOutcome.exited 1, readFinal := none }

/- Concrete scenario: unprivileged_user strategy with no codexUser and a
temporary output allocation. -/
def missingUserScenario : ExecArgs :=
  { prompt := PromptSource.inlineText "p", codexHome := none, cd := ".",
    proxyPort := 3000, extraArgs := [], explicitOutputFile := none,
    outputSchema := none, model := none,
    safetyStrategy := SafetyStrategy.unprivileged_user, codexUser := none,
    sandbox := SandboxMode.workspace_write }

def missingUserOracle : ExecOracle :=
  { spawnOutcome := SpawnOutcome.exited 0, readFinal := some "m" }

/- Concrete scenario: temporary output allocation, inline schema, agent
exits zero. -/
def cleanupWitnessScenario : ExecArgs :=
  { prompt := PromptSource.inlineText "p", codexHome := none, cd := ".",
    proxyPort := 3000, extraArgs := [], explicitOutputFile := none,
    outputSchema := some (OutputSchemaSource.inlineText "sch"),
    model := none, safetyStrategy := SafetyStrategy.read_only,
    codexUser := none, sandbox := SandboxMode.workspace_write }

def cleanupWitnessOracle : ExecOracle :=
  { spawnOutcome := SpawnOutcome.exited 0, readFinal := some "m" }

/- Specification vocabulary for lines of a sudoers file: comment lines,
blank lines, and the first whitespace-delimited token. -/
def isCommentLine (l : List Char) : Bool :=
  (l.dropWhile jsWs).head? = some '#'

def isBlankLine (l : List Char) : Bool :=
  (l.dropWhile jsWs).isEmpty

def firstToken (l : List Char) : List Char :=
  (l.dropWhile jsWs).takeWhile (fun c => !(jsWs c))

/- The sudoers fixture of the specification: one rule line for alice, one
comment mentioning alice, one blank line. -/
def sudoersFixture : List Char :=
  ("alice ALL=(ALL) NOPASSWD:ALL\n# alice backup rule\n\n").data

/-
Theorems.
-/

/-- C4: the effective sandbox mode equals read-only when the strategy is
read_only, regardless of the requested value, and equals the requested value
unchanged for every other strategy. -/
theorem determineSandboxMode_spec :
    (∀ r : SandboxMode,
      determineSandboxMode SafetyStrategy.read_only r = SandboxMode.read_only) ∧
    (∀ (s : SafetyStrategy) (r : SandboxMode), s ≠ SafetyStrategy.read_only →
      determineSandboxMode s r = r) := by
  constructor
  · intro r; rfl
  · intro s r h
    cases s
    case read_only => exact absurd rfl h
    all_goals rfl

/-- Witness for C4 at concrete inputs. -/
theorem determineSandboxMode_spec_witness :
    determineSandboxMode SafetyStrategy.read_only SandboxMode.workspace_write =
      SandboxMode.read_only ∧
    determineSandboxMode SafetyStrategy.drop_sudo SandboxMode.workspace_write =
      SandboxMode.workspace_write :=
  ⟨determineSandboxMode_spec.1 SandboxMode.workspace_write,
   determineSandboxMode_spec.2 SafetyStrategy.drop_sudo
     SandboxMode.workspace_write (by decide)⟩

/-- C2: on Unix-like targets all four safety-strategy tokens validate
successfully; on the Windows target only "unsafe" is accepted, and every
other token is rejected by the pure validation (hence before any subprocess
is spawned) with an error naming the rejected value and the OS constraint. -/
theorem validateSafetyStrategy_spec :
    (∀ os ∈ [RunnerOS.linux, RunnerOS.darwin],
      ∀ v ∈ ["drop_sudo", "read_only", "unprivileged_user", "unsafe"],
        ∃ s, validateSafetyStrategy os v = Except.ok s) ∧
    validateSafetyStrategy RunnerOS.windows "unsafe" =
      Except.ok SafetyStrategy.unsafe_ ∧
    (∀ v, v ≠ "unsafe" →
      validateSafetyStrategy RunnerOS.windows v =
        Except.error (windowsStrategyMessage v)) := by
  refine ⟨?_, rfl, ?_⟩
  · intro os hos v hv
    fin_cases hos <;> fin_cases hv <;> exact ⟨_, rfl⟩
  · intro v h
    simp [validateSafetyStrategy, h]

/-- Witness for C2 at concrete inputs. -/
theorem validateSafetyStrategy_spec_witness :
    (∃ s, validateSafetyStrategy RunnerOS.linux "drop_sudo" = Except.ok s) ∧
    validateSafetyStrategy RunnerOS.windows "read_only" =
      Except.error (windowsStrategyMessage "read_only") :=
  ⟨validateSafetyStrategy_spec.1 RunnerOS.linux (by simp) "drop_sudo" (by simp),
   validateSafetyStrategy_spec.2.2 "read_only" (by decide)⟩

/-- C10: whenever the effective user id is obtainable and non-zero, the
drop-sudo root phase fails with its root-requirement error no matter what the
platform, target user/group, probe outcomes or sudoers files are — so it
fails before any group-membership or sudoers-file mutation is attempted. -/
theorem rootPhase_requires_root (u : Nat) (hu : u ≠ 0) (platform : RunnerOS)
    (user group : String) (env : GroupEnv)
    (sudoersD : Option (List DiskFile)) (etc : DiskFile) :
    dropSudoWithPrivileges (some u) platform user group env sudoersD etc =
      Except.error "drop-sudo root phase must run as root." := by
  simp [dropSudoWithPrivileges, rootUidBlocked, hu]

/-- Witness for C10 at a concrete non-root uid. -/
theorem rootPhase_requires_root_witness :
    dropSudoWithPrivileges (some 1000) RunnerOS.linux "runner" "sudo"
        { userInGroup := true, hasDeluser := true, hasGpasswd := true }
        none { name := "/etc/sudoers", disk := none, writeOk := true } =
      Except.error "drop-sudo root phase must run as root." :=
  rootPhase_requires_root 1000 (by decide) RunnerOS.linux "runner" "sudo"
    { userInGroup := true, hasDeluser := true, hasGpasswd := true }
    none { name := "/etc/sudoers", disk := none, writeOk := true }

/-- C8: in the Linux root phase, a user in the elevation group is removed
preferring deluser, falling back to gpasswd -d when deluser is unavailable,
and the phase fails fatally when neither exists; a user not in the group
leaves the phase successful with no membership change. -/
theorem dropSudo_linux_group_spec (user group : String) (env : GroupEnv)
    (sudoersD : Option (List DiskFile)) (etc : DiskFile) :
    (env.userInGroup = true → env.hasDeluser = true →
      ∃ r, dropSudoWithPrivileges (some 0) RunnerOS.linux user group env
            sudoersD etc = Except.ok r ∧
        r.groupCmds = [("deluser", [user, group])] ∧ r.groupChanged = true) ∧
    (env.userInGroup = true → env.hasDeluser = false → env.hasGpasswd = true →
      ∃ r, dropSudoWithPrivileges (some 0) RunnerOS.linux user group env
            sudoersD etc = Except.ok r ∧
        r.groupCmds = [("gpasswd", ["-d", user, group])] ∧
        r.groupChanged = true) ∧
    (env.userInGroup = true → env.hasDeluser = false →
     env.hasGpasswd = false →
      dropSudoWithPrivileges (some 0) RunnerOS.linux user group env
          sudoersD etc =
        Except.error "Neither deluser nor gpasswd available.") ∧
    (env.userInGroup = false →
      ∃ r, dropSudoWithPrivileges (some 0) RunnerOS.linux user group env
            sudoersD etc = Except.ok r ∧
        r.groupCmds = [] ∧ r.groupChanged = false) := by
  refine ⟨?_, ?_, ?_, ?_⟩
  · intro h1 h2
    simp [dropSudoWithPrivileges, rootUidBlocked, groupRemovalStep, h1, h2]
  · intro h1 h2 h3
    simp [dropSudoWithPrivileges, rootUidBlocked, groupRemovalStep, h1, h2, h3]
  · intro h1 h2 h3
    simp [dropSudoWithPrivileges, rootUidBlocked, groupRemovalStep, h1, h2, h3]
  · intro h1
    simp [dropSudoWithPrivileges, rootUidBlocked, groupRemovalStep, h1]

/-- Witness for C8: the four probe configurations at concrete inputs. -/
theorem dropSudo_linux_group_spec_witness :
    (∃ r, dropSudoWithPrivileges (some 0) RunnerOS.linux "runner" "sudo"
          { userInGroup := true, hasDeluser := true, hasGpasswd := true }
          none { name := "/etc/sudoers", disk := none, writeOk := true } =
        Except.ok r ∧
      r.groupCmds = [("deluser", ["runner", "sudo"])] ∧
      r.groupChanged = true) ∧
    (∃ r, dropSudoWithPrivileges (some 0) RunnerOS.linux "runner" "sudo"
          { userInGroup := true, hasDeluser := false, hasGpasswd := true }
          none { name := "/etc/sudoers", disk := none, writeOk := true } =
        Except.ok r ∧
      r.groupCmds = [("gpasswd", ["-d", "runner", "sudo"])] ∧
      r.groupChanged = true) ∧
    dropSudoWithPrivileges (some 0) RunnerOS.linux "runner" "sudo"
        { userInGroup := true, hasDeluser := false, hasGpasswd := false }
        none { name := "/etc/sudoers", disk := none, writeOk := true } =
      Except.error "Neither deluser nor gpasswd available." ∧
    (∃ r, dropSudoWithPrivileges (some 0) RunnerOS.linux "runner" "sudo"
          { userInGroup := false, hasDeluser := false, hasGpasswd := false }
          none { name := "/etc/sudoers", disk := none, writeOk := true } =
        Except.ok r ∧
      r.groupCmds = [] ∧ r.groupChanged = false) :=
  ⟨(dropSudo_linux_group_spec "runner" "sudo"
      { userInGroup := true, hasDeluser := true, hasGpasswd := true }
      none { name := "/etc/sudoers", disk := none, writeOk := true }).1
      rfl rfl,
   (dropSudo_linux_group_spec "runner" "sudo"
      { userInGroup := true, hasDeluser := false, hasGpasswd := true }
      none { name := "/etc/sudoers", disk := none, writeOk := true }).2.1
      rfl rfl rfl,
   (dropSudo_linux_group_spec "runner" "sudo"
      { userInGroup := true, hasDeluser := false, hasGpasswd := false }
      none { name := "/etc/sudoers", disk := none, writeOk := true }).2.2.1
      rfl rfl rfl,
   (dropSudo_linux_group_spec "runner" "sudo"
      { userInGroup := false, hasDeluser := false, hasGpasswd := false }
      none { name := "/etc/sudoers", disk := none, writeOk := true }).2.2.2
      rfl⟩

/-- C9: a stat/read failure (disk = none) and a write/chmod failure
(writeOk = false) during the sudoers strip are swallowed and produce the
same observable null outcome as a file with no matching entries; the
function is total, so no error reaches the root-phase caller. -/
theorem stripFile_failures_swallowed (user : String) :
    (∀ w, stripUserEntriesFromFile none w user = none) ∧
    (∀ original mode, stripUserEntriesPure original user ≠ none →
      stripUserEntriesFromFile (some (original, mode)) false user = none) ∧
    (∀ original mode w, stripUserEntriesPure original user = none →
      stripUserEntriesFromFile (some (original, mode)) w user = none) := by
  refine ⟨fun w => rfl, ?_, ?_⟩
  · intro o m h
    cases hp : stripUserEntriesPure o user with
    | none => simp [stripUserEntriesFromFile, hp]
    | some r => simp [stripUserEntriesFromFile, hp]
  · intro o m w h
    simp [stripUserEntriesFromFile, h]

/-- Witness for C9: a read failure, a write failure on a file with a matching
entry, and a no-match file all yield none. -/
theorem stripFile_failures_swallowed_witness :
    stripUserEntriesFromFile none true "alice" = none ∧
    stripUserEntriesFromFile (some (("alice x\n").data, 0o440)) false
      "alice" = none ∧
    stripUserEntriesFromFile (some (("# note\n").data, 0o440)) true
      "alice" = none :=
  ⟨(stripFile_failures_swallowed "alice").1 true,
   (stripFile_failures_swallowed "alice").2.1 ("alice x\n").data 0o440
     (by decide),
   (stripFile_failures_swallowed "alice").2.2 ("# note\n").data 0o440 true
     (by decide)⟩

/- Helper: the command composes successfully whenever the strategy/user
combination is valid. -/
theorem composeCommand_ok (a : ExecArgs) (outputFile : OutputFile)
    (schema : Option ResolvedOutputSchema) (sandboxMode : SandboxMode)
    (h : ¬(a.safetyStrategy = SafetyStrategy.unprivileged_user ∧
           a.codexUser = none)) :
    ∃ cmd, composeCommand a outputFile schema sandboxMode = Except.ok cmd := by
  cases hs : a.safetyStrategy <;> cases hc : a.codexUser <;>
    simp_all [composeCommand]

/-- C5: whenever the command composes (the strategy/user combination is
valid), its token sequence is the optional impersonation prefix, the
executable, the skip-repository-check flag, the working-directory flag, the
provider configuration flags, the output-file flag, the optional schema flag,
the optional model flag, all pass-through extra arguments, and the
sandbox-mode flag last — so the sandbox-mode flag comes after every
pass-through extra argument. -/
theorem composeCommand_order (a : ExecArgs) (outputFile : OutputFile)
    (schema : Option ResolvedOutputSchema) (sandboxMode : SandboxMode)
    (h : ¬(a.safetyStrategy = SafetyStrategy.unprivileged_user ∧
           a.codexUser = none)) :
    composeCommand a outputFile schema sandboxMode =
      Except.ok
        ((match a.safetyStrategy, a.codexUser with
          | .unprivileged_user, some u => ["sudo", "-u", u, "--"]
          | _, _ => []) ++
         ["codex", "exec", "--skip-git-repo-check", "--cd", a.cd,
          "--config", providerConfigArg a.proxyPort,
          "--config", modelProviderArg,
          "--output-last-message", outputFile.file] ++
         (match schema with
          | some s => ["--output-schema", s.file]
          | none => []) ++
         (match a.model with
          | some m => ["--model", m]
          | none => []) ++
         a.extraArgs ++ ["--sandbox", sandboxMode.token]) := by
  cases hs : a.safetyStrategy <;> cases hc : a.codexUser <;>
    simp_all [composeCommand]

/-- Witness for C5 at concrete inputs: two extra arguments, an impersonation
prefix, a schema and a model; the sandbox flag lands after the extras. -/
theorem composeCommand_order_witness :
    composeCommand
        { prompt := PromptSource.inlineText "p", codexHome := none,
          cd := "/work", proxyPort := 3000,
          extraArgs := ["--flag", "value"], explicitOutputFile := none,
          outputSchema := none, model := some "gpt-5",
          safetyStrategy := SafetyStrategy.unprivileged_user,
          codexUser := some "codex", sandbox := SandboxMode.workspace_write }
        (OutputFile.temp "codex-exec-XXXXXX/output.md")
        (some (ResolvedOutputSchema.temp
          "codex-output-schema-XXXXXX/schema.json"
          "codex-output-schema-XXXXXX"))
        SandboxMode.workspace_write =
      Except.ok
        (["sudo", "-u", "codex", "--"] ++
         ["codex", "exec", "--skip-git-repo-check", "--cd", "/work",
          "--config", providerConfigArg 3000, "--config", modelProviderArg,
          "--output-last-message", "codex-exec-XXXXXX/output.md"] ++
         ["--output-schema", "codex-output-schema-XXXXXX/schema.json"] ++
         ["--model", "gpt-5"] ++
         ["--flag", "value"] ++ ["--sandbox", "workspace-write"]) :=
  composeCommand_order
    { prompt := PromptSource.inlineText "p", codexHome := none,
      cd := "/work", proxyPort := 3000,
      extraArgs := ["--flag", "value"], explicitOutputFile := none,
      outputSchema := none, model := some "gpt-5",
      safetyStrategy := SafetyStrategy.unprivileged_user,
      codexUser := some "codex", sandbox := SandboxMode.workspace_write }
    (OutputFile.temp "codex-exec-XXXXXX/output.md")
    (some (ResolvedOutputSchema.temp
      "codex-output-schema-XXXXXX/schema.json" "codex-output-schema-XXXXXX"))
    SandboxMode.workspace_write
    (by decide)

/- Helper: path.dirname recovers the temp directory of the temporary output
file. -/
theorem dirname_temp_output :
    dirname (tempName "codex-exec-" ++ "/" ++ "output.md") =
      tempName "codex-exec-" := by decide

/- Helper: the schema temp directory is removed on every spawn-outcome path
once the command composed. -/
theorem schema_cleanup_always (a : ExecArgs) (o : ExecOracle)
    (h : ¬(a.safetyStrategy = SafetyStrategy.unprivileged_user ∧
           a.codexUser = none))
    (c : String)
    (hs : a.outputSchema = some (OutputSchemaSource.inlineText c)) :
    FsEvent.rmrf (tempName "codex-output-schema-") ∈ (runCodexExec a o).2 := by
  rcases a with ⟨prompt, ch, cd, pp, ea, eof, osch, mdl, strat, cuser, sbx⟩
  rcases o with ⟨so, rf⟩
  simp only at hs h ⊢
  subst hs
  rcases eof with _ | f <;> rcases strat <;> rcases cuser with _ | u <;>
    simp at h <;> rcases so with _ | code <;>
      simp [runCodexExec, composeCommand, createTempOutputFile,
            resolveOutputSchema, cleanupOutputSchema, finalizeExecution,
            cleanupTempOutput]

set_option maxHeartbeats 1000000 in
/- Helper: every removal event targets the directory of a temporary
allocation, never an explicit path. -/
theorem rm_only_temps (a : ExecArgs) (o : ExecOracle) (d : String)
    (hd : FsEvent.rmrf d ∈ (runCodexExec a o).2) :
    (a.explicitOutputFile = none ∧ d = tempName "codex-exec-") ∨
    ((∃ c, a.outputSchema = some (OutputSchemaSource.inlineText c)) ∧
      d = tempName "codex-output-schema-") := by
  rcases a with ⟨prompt, ch, cd, pp, ea, eof, osch, mdl, strat, cuser, sbx⟩
  rcases o with ⟨so, rf⟩
  simp only at hd ⊢
  rcases prompt with c0 | p0 <;> rcases eof with _ | f <;>
    rcases osch with _ | sc <;> (try rcases sc with p | c) <;>
    rcases strat <;> rcases cuser with _ | u <;>
    rcases so with _ | code <;>
    (try rcases rf with _ | msg) <;>
    (try by_cases hcode : code = 0) <;>
    simp_all [runCodexExec, composeCommand, createTempOutputFile,
              resolveOutputSchema, cleanupOutputSchema, finalizeExecution,
              cleanupTempOutput, dirname_temp_output]

set_option maxHeartbeats 1000000 in
/- Helper: the temporary output directory is removed whenever the agent
exited zero (the success and final-read-failure paths). -/
theorem temp_output_removed_on_zero_exit (a : ExecArgs) (o : ExecOracle)
    (h : ¬(a.safetyStrategy = SafetyStrategy.unprivileged_user ∧
           a.codexUser = none))
    (heof : a.explicitOutputFile = none)
    (hso : o.spawnOutcome = SpawnOutcome.exited 0) :
    FsEvent.rmrf (tempName "codex-exec-") ∈ (runCodexExec a o).2 := by
  rcases a with ⟨prompt, ch, cd, pp, ea, eof, osch, mdl, strat, cuser, sbx⟩
  rcases o with ⟨so, rf⟩
  simp only at h heof hso ⊢
  subst heof hso
  rcases prompt with c0 | p0 <;>
    rcases osch with _ | sc <;> (try rcases sc with p | c) <;>
    rcases strat <;> rcases cuser with _ | u <;>
    simp at h <;> rcases rf with _ | msg <;>
    simp [runCodexExec, composeCommand, createTempOutputFile,
          resolveOutputSchema, cleanupOutputSchema, finalizeExecution,
          cleanupTempOutput, dirname_temp_output]

/-- C1 counterexample: with a temporary output allocation and no schema, an
agent exit code of 1 leaves a trace with the temp-directory creation event
but no removal event at all, so the temporary output directory is not
deleted on the non-zero-exit path, contrary to the claim. -/
theorem cleanup_counterexample :
    nonZeroExitScenario.explicitOutputFile = none ∧
    (runCodexExec nonZeroExitScenario nonZeroExitOracle).1 =
      Except.error (ExecError.nonZeroExit 1) ∧
    FsEvent.mkdtemp "codex-exec-" "codex-exec-XXXXXX" ∈
      (runCodexExec nonZeroExitScenario nonZeroExitOracle).2 ∧
    (runCodexExec nonZeroExitScenario nonZeroExitOracle).2.all
      (fun e => !(isRmEvent e)) = true :=
  ⟨rfl, rfl, by decide, by decide⟩

/-- C1 (amended): once the command composes (the strategy/user combination is
valid), the inline-schema temporary directory is deleted on every spawn
path (success, non-zero exit, spawn error, final-read failure); every
deletion targets the directory of a temporary allocation, so explicit output
and schema paths are never deleted; and the temporary output directory is
deleted exactly on the paths where the agent exited zero (success and
final-read failure) — not on non-zero exit or spawn error. -/
theorem cleanup_amended (a : ExecArgs) (o : ExecOracle)
    (h : ¬(a.safetyStrategy = SafetyStrategy.unprivileged_user ∧
           a.codexUser = none)) :
    (∀ c, a.outputSchema = some (OutputSchemaSource.inlineText c) →
      FsEvent.rmrf (tempName "codex-output-schema-") ∈
        (runCodexExec a o).2) ∧
    (∀ d, FsEvent.rmrf d ∈ (runCodexExec a o).2 →
      (a.explicitOutputFile = none ∧ d = tempName "codex-exec-") ∨
      ((∃ c, a.outputSchema = some (OutputSchemaSource.inlineText c)) ∧
        d = tempName "codex-output-schema-")) ∧
    (a.explicitOutputFile = none → o.spawnOutcome = SpawnOutcome.exited 0 →
      FsEvent.rmrf (tempName "codex-exec-") ∈ (runCodexExec a o).2) :=
  ⟨fun c hc => schema_cleanup_always a o h c hc,
   fun d hd => rm_only_temps a o d hd,
   fun heof hso => temp_output_removed_on_zero_exit a o h heof hso⟩

/-- Witness for C1 (amended) at a concrete scenario with a temporary output,
an inline schema and a zero exit: both temp directories are removed. -/
theorem cleanup_amended_witness :
    FsEvent.rmrf (tempName "codex-output-schema-") ∈
      (runCodexExec cleanupWitnessScenario cleanupWitnessOracle).2 ∧
    FsEvent.rmrf (tempName "codex-exec-") ∈
      (runCodexExec cleanupWitnessScenario cleanupWitnessOracle).2 :=
  ⟨(cleanup_amended cleanupWitnessScenario cleanupWitnessOracle
      (by decide)).1 "sch" rfl,
   (cleanup_amended cleanupWitnessScenario cleanupWitnessOracle
      (by decide)).2.2 rfl rfl⟩

/-- C7 counterexample: with the unprivileged_user strategy and no codexUser,
the orchestrator has already created the temporary output directory before
the validation error surfaces, so the error is not raised before any
resource is created, contrary to the claim. -/
theorem missingCodexUser_counterexample :
    (runCodexExec missingUserScenario missingUserOracle).1 =
      Except.error ExecError.missingCodexUser ∧
    FsEvent.mkdtemp "codex-exec-" "codex-exec-XXXXXX" ∈
      (runCodexExec missingUserScenario missingUserOracle).2 :=
  ⟨rfl, by decide⟩

set_option maxHeartbeats 1000000 in
/-- C7 (amended): with the unprivileged_user strategy and a null codexUser,
the orchestrated execution fails with the descriptive missing-user error and
spawns zero subprocesses; however, temporary resources (output directory,
schema file) may already have been created before the check. -/
theorem missingCodexUser_amended (a : ExecArgs) (o : ExecOracle)
    (hs : a.safetyStrategy = SafetyStrategy.unprivileged_user)
    (hc : a.codexUser = none) :
    (runCodexExec a o).1 = Except.error ExecError.missingCodexUser ∧
    (∀ p args, FsEvent.spawnProc p args ∉ (runCodexExec a o).2) ∧
    ExecError.message ExecError.missingCodexUser =
      "codexUser must be specified when using the " ++ apos ++
        "unprivileged_user" ++ apos ++ " safety strategy." := by
  refine ⟨?_, ?_, rfl⟩ <;>
  · rcases a with ⟨prompt, ch, cd, pp, ea, eof, osch, mdl, strat, cuser, sbx⟩
    rcases o with ⟨so, rf⟩
    simp only at hs hc ⊢
    subst hs hc
    rcases prompt with c0 | p0 <;> rcases eof with _ | f <;>
      rcases osch with _ | sc <;> (try rcases sc with p | c) <;>
      simp [runCodexExec, composeCommand, createTempOutputFile,
            resolveOutputSchema]

/-- Witness for C7 (amended) at the concrete missing-user scenario. -/
theorem missingCodexUser_amended_witness :
    (runCodexExec missingUserScenario missingUserOracle).1 =
      Except.error ExecError.missingCodexUser ∧
    (∀ p args, FsEvent.spawnProc p args ∉
      (runCodexExec missingUserScenario missingUserOracle).2) :=
  ⟨(missingCodexUser_amended missingUserScenario missingUserOracle
      rfl rfl).1,
   (missingCodexUser_amended missingUserScenario missingUserOracle
      rfl rfl).2.1⟩

/-
Lemmas about the sudoers line-splitting and rebuild operations, leading to
the strip-transformation specification (C3) and its idempotence (C6).
-/

theorem splitRN_nil_eq : splitRN [] = [[]] := rfl

theorem splitRN_nl (x : List Char) : splitRN ('\n' :: x) = [] :: splitRN x := rfl

theorem splitRN_crnl (x : List Char) :
    splitRN ('\r' :: '\n' :: x) = [] :: splitRN x := rfl

theorem splitRN_cons_ne (c : Char) (x : List Char) (h1 : c ≠ '\n')
    (h2 : ¬(c = '\r' ∧ x.head? = some '\n')) :
    splitRN (c :: x) = consHead c (splitRN x) := by
  cases x with
  | nil => simp only [splitRN]
  | cons d y =>
    by_cases hd : d = '\n'
    · subst hd
      have hc : c ≠ '\r' := fun hcr => h2 ⟨hcr, rfl⟩
      simp [splitRN, h1, hc]
    · simp [splitRN, h1, hd]

theorem consHead_ne_nil (c : Char) (ls : List (List Char)) :
    consHead c ls ≠ [] := by
  cases ls <;> simp [consHead]

theorem splitRN_ne_nil (cs : List Char) : splitRN cs ≠ [] := by
  induction cs with
  | nil => simp [splitRN]
  | cons c rest ih =>
    by_cases h1 : c = '\n'
    · subst h1; rw [splitRN_nl]; simp
    · by_cases h2 : c = '\r' ∧ rest.head? = some '\n'
      · obtain ⟨hc, hh⟩ := h2
        subst hc
        obtain ⟨y, hy⟩ := List.head?_eq_some_iff.mp hh
        subst hy
        rw [splitRN_crnl]; simp
      · rw [splitRN_cons_ne c rest h1 h2]
        exact consHead_ne_nil c (splitRN rest)

theorem no_nl_of_mem_splitRN (cs : List Char) :
    ∀ l ∈ splitRN cs, '\n' ∉ l := by
  induction cs with
  | nil =>
    intro l hl
    simp [splitRN] at hl
    subst hl; simp
  | cons c rest ih =>
    intro l hl
    by_cases h1 : c = '\n'
    · subst h1
      rw [splitRN_nl] at hl
      rcases List.mem_cons.mp hl with h | h
      · subst h; simp
      · exact ih l h
    · by_cases h2 : c = '\r' ∧ rest.head? = some '\n'
      · obtain ⟨hc, hh⟩ := h2
        subst hc
        obtain ⟨y, hy⟩ := List.head?_eq_some_iff.mp hh
        subst hy
        rw [splitRN_crnl] at hl
        rcases List.mem_cons.mp hl with h | h
        · subst h; simp
        · exact ih l (by rw [splitRN_nl]; exact List.mem_cons_of_mem _ h)
      · rw [splitRN_cons_ne c rest h1 h2] at hl
        rcases hsp : splitRN rest with _ | ⟨t, ts⟩
        · exact absurd hsp (splitRN_ne_nil rest)
        · rw [hsp] at hl
          simp only [consHead] at hl
          rcases List.mem_cons.mp hl with h | h
          · subst h
            intro hmem
            rcases List.mem_cons.mp hmem with h | h
            · exact h1 h.symm
            · exact ih t (by rw [hsp]; exact List.mem_cons_self t ts) h
          · exact ih l (by rw [hsp]; exact List.mem_cons_of_mem _ h)

theorem stripCr_append_cr (l : List Char) : stripCr (l ++ ['\r']) = l := by
  simp [stripCr, List.getLast?_concat]

theorem stripCr_cons (c : Char) (l : List Char) (h : l ≠ []) :
    stripCr (c :: l) = c :: stripCr l := by
  rcases l with _ | ⟨d, l2⟩
  · exact absurd rfl h
  · simp only [stripCr, List.getLast?_cons_cons]
    split
    · rw [List.dropLast_cons₂]
    · rfl

theorem splitRN_no_nl (l : List Char) (h : '\n' ∉ l) : splitRN l = [l] := by
  induction l with
  | nil => rfl
  | cons c l ih =>
    rw [List.mem_cons, not_or] at h
    obtain ⟨hne, hnot⟩ := h
    have h2 : ¬(c = '\r' ∧ l.head? = some '\n') := by
      rintro ⟨hc, hh⟩
      obtain ⟨y, hy⟩ := List.head?_eq_some_iff.mp hh
      exact hnot (hy ▸ List.mem_cons_self '\n' y)
    rw [splitRN_cons_ne c l (fun e => hne e.symm) h2, ih hnot]
    rfl

theorem splitRN_append_nl (l x : List Char) (h : '\n' ∉ l) :
    splitRN (l ++ '\n' :: x) = stripCr l :: splitRN x := by
  induction l with
  | nil => rw [List.nil_append, splitRN_nl]; rfl
  | cons c l ih =>
    rw [List.mem_cons, not_or] at h
    obtain ⟨hne, hnot⟩ := h
    have hc : c ≠ '\n' := fun e => hne e.symm
    rcases l with _ | ⟨d, l2⟩
    · by_cases hr : c = '\r'
      · subst hr
        rw [show ('\r' :: []) ++ '\n' :: x = '\r' :: '\n' :: x from rfl,
            splitRN_crnl]
        simp [stripCr]
      · rw [show (c :: []) ++ '\n' :: x = c :: '\n' :: x from rfl,
            splitRN_cons_ne c ('\n' :: x) hc (by simp [hr]),
            splitRN_nl]
        simp [consHead, stripCr, hr]
    · have hd : d ≠ '\n' := by
        intro e
        exact hnot (e ▸ List.mem_cons_self d l2)
      rw [List.cons_append,
          splitRN_cons_ne c ((d :: l2) ++ '\n' :: x) hc
            (by simp [hd]),
          ih hnot]
      simp only [consHead]
      rw [stripCr_cons c (d :: l2) (by simp)]

theorem takeWhile_dropLast (p : Char → Bool) (l : List Char)
    (h : ∀ a, l.getLast? = some a → p a = false) :
    (l.dropLast).takeWhile p = l.takeWhile p := by
  induction l with
  | nil => rfl
  | cons x xs ih =>
    rcases xs with _ | ⟨y, ys⟩
    · have := h x rfl
      simp [List.takeWhile_cons, this]
    · rw [List.dropLast_cons₂]
      by_cases hx : p x
      · rw [List.takeWhile_cons_of_pos hx, List.takeWhile_cons_of_pos hx,
            ih (fun a ha => h a (by rw [List.getLast?_cons_cons]; exact ha))]
      · rw [List.takeWhile_cons_of_neg hx, List.takeWhile_cons_of_neg hx]

theorem keepLine_nil (u : String) : keepLine u [] = true := rfl

theorem jsWs_cr : jsWs '\r' = true := by decide

theorem keepLine_stripCr (u : String) (l : List Char)
    (h : keepLine u l = true) : keepLine u (stripCr l) = true := by
  by_cases hlast : l.getLast? = some '\r'
  · rw [stripCr, if_pos hlast]
    rcases ht : l.dropWhile jsWs with _ | ⟨d, t2⟩
    · -- blank line: all characters are whitespace
      have hall : ∀ c ∈ l, jsWs c := List.dropWhile_eq_nil_iff.mp ht
      have hdl : (l.dropLast).dropWhile jsWs = [] :=
        List.dropWhile_eq_nil_iff.mpr
          (fun c hc => hall c (List.dropLast_subset l hc))
      simp [keepLine, hdl]
    · -- non-blank: the trimmed tail t = d :: t2 with d non-whitespace,
      -- ending in the carriage return that dropLast removes
      have hdws : jsWs d = false := by
        have : d ∈ l.dropWhile jsWs := by rw [ht]; exact List.mem_cons_self d t2
        have := List.head?_dropWhile_not jsWs l
        rw [ht] at this
        simpa using this
      have hwl : ∀ c ∈ l.takeWhile jsWs, jsWs c = true :=
        fun c hc => List.mem_takeWhile_imp hc
      have hsplit : l.takeWhile jsWs ++ (d :: t2) = l := by
        rw [← ht]; exact List.takeWhile_append_dropWhile jsWs l
      have hlast2 : (d :: t2).getLast? = some '\r' := by
        rw [← List.getLast?_append_of_ne_nil (l.takeWhile jsWs)
              (by simp : (d :: t2) ≠ []), hsplit]
        exact hlast
      have ht2ne : t2 ≠ [] := by
        intro he
        subst he
        simp at hlast2
        subst hlast2
        rw [jsWs_cr] at hdws
        exact Bool.true_eq_false.mp hdws
      have hdrop : l.dropLast = l.takeWhile jsWs ++ (d :: t2).dropLast := by
        conv_lhs => rw [← hsplit]
        exact List.dropLast_append_of_ne_nil _ (by simp)
      have hdl2 : (d :: t2).dropLast = d :: t2.dropLast := by
        rcases t2 with _ | ⟨e, t3⟩
        · exact absurd rfl ht2ne
        · rw [List.dropLast_cons₂]
      have hdw2 : (l.dropLast).dropWhile jsWs = d :: t2.dropLast := by
        rw [hdrop, List.dropWhile_append]
        have : (l.takeWhile jsWs).dropWhile jsWs = [] :=
          List.dropWhile_eq_nil_iff.mpr hwl
        rw [this]
        simp only [List.isEmpty_nil, if_true]
        rw [hdl2, List.dropWhile_cons_of_neg (by simp [hdws])]
      -- now transfer the keep decision
      rw [keepLine, ht] at h
      rw [keepLine, hdw2]
      by_cases hhash : d = '#'
      · subst hhash; simp
      · simp only [List.head?_cons, Option.some.injEq, hhash, if_false,
                   List.isEmpty_cons, if_neg] at h ⊢
        have htake : (d :: t2.dropLast).takeWhile (fun c => !(jsWs c)) =
            (d :: t2).takeWhile (fun c => !(jsWs c)) := by
          rw [← hdl2]
          exact takeWhile_dropLast _ _
            (fun a ha => by
              rw [hlast2] at ha
              cases ha
              simp [jsWs_cr])
        simp only [Bool.ite_eq_true_distrib] at h ⊢
        rw [htake]
        simpa using h
  · rw [stripCr, if_neg hlast]
    exact h

theorem mem_toLines_of_mem (cs : List Char) (l : List Char)
    (h : l ∈ toLines cs) : l ∈ splitRN cs := by
  rw [toLines] at h
  split at h
  · exact List.dropLast_subset _ h
  · exact h

theorem joinWith_cons₂ (sep : List Char) (l l2 : List Char)
    (ls : List (List Char)) :
    joinWith sep (l :: l2 :: ls) = l ++ sep ++ joinWith sep (l2 :: ls) := rfl

theorem rebuilt_all_keep (u : String) (nl trail : List Char)
    (hnl : nl = ['\n'] ∨ nl = ['\r', '\n'])
    (htrail : trail = [] ∨ trail = nl) :
    ∀ ls : List (List Char),
      (∀ l ∈ ls, keepLine u l = true ∧ '\n' ∉ l) →
      ∀ l ∈ splitRN (joinWith nl ls ++ trail), keepLine u l = true := by
  intro ls
  induction ls with
  | nil =>
    intro _ l hl
    have hnil : l = [] := by
      rcases htrail with ht | ht <;> subst ht <;>
        rcases hnl with hn | hn <;> subst hn <;>
        simp_all [joinWith, splitRN, splitRN_nl, splitRN_crnl]
    subst hnil
    exact keepLine_nil u
  | cons l0 ls ih =>
    intro hall l hl
    have hl0 := hall l0 (List.mem_cons_self l0 ls)
    rcases ls with _ | ⟨l1, ls2⟩
    · -- singleton
      rcases htrail with ht | ht
      · subst ht
        rw [show joinWith nl [l0] = l0 from rfl, List.append_nil,
            splitRN_no_nl l0 hl0.2] at hl
        rcases List.mem_cons.mp hl with h | h
        · subst h; exact hl0.1
        · simp at h
      · subst ht
        rcases hnl with hn | hn <;> subst hn
        · rw [show joinWith ['\n'] [l0] ++ ['\n'] = l0 ++ '\n' :: [] from by
                simp [joinWith],
              splitRN_append_nl l0 [] hl0.2] at hl
          rcases List.mem_cons.mp hl with h | h
          · subst h; exact keepLine_stripCr u l0 hl0.1
          · simp [splitRN] at h; subst h; exact keepLine_nil u
        · rw [show joinWith ['\r', '\n'] [l0] ++ ['\r', '\n'] =
                (l0 ++ ['\r']) ++ '\n' :: [] from by simp [joinWith],
              splitRN_append_nl (l0 ++ ['\r']) [] (by simp [hl0.2])] at hl
          rw [stripCr_append_cr] at hl
          rcases List.mem_cons.mp hl with h | h
          · subst h; exact hl0.1
          · simp [splitRN] at h; subst h; exact keepLine_nil u
    · -- at least two lines
      have hrest : ∀ l ∈ l1 :: ls2, keepLine u l = true ∧ '\n' ∉ l :=
        fun l hl => hall l (List.mem_cons_of_mem _ hl)
      rcases hnl with hn | hn <;> subst hn
      · rw [joinWith_cons₂, List.append_assoc, List.append_assoc,
            show ['\n'] ++ (joinWith ['\n'] (l1 :: ls2) ++ trail) =
              '\n' :: (joinWith ['\n'] (l1 :: ls2) ++ trail) from rfl,
            splitRN_append_nl l0 _ hl0.2] at hl
        rcases List.mem_cons.mp hl with h | h
        · subst h; exact keepLine_stripCr u l0 hl0.1
        · exact ih hrest l h
      · rw [joinWith_cons₂, List.append_assoc, List.append_assoc,
            show ['\r', '\n'] ++ (joinWith ['\r', '\n'] (l1 :: ls2) ++ trail) =
              '\r' :: '\n' :: (joinWith ['\r', '\n'] (l1 :: ls2) ++ trail)
              from rfl] at hl
        rw [show l0 ++ '\r' :: '\n' ::
              (joinWith ['\r', '\n'] (l1 :: ls2) ++ trail) =
              (l0 ++ ['\r']) ++ '\n' ::
              (joinWith ['\r', '\n'] (l1 :: ls2) ++ trail) from by simp] at hl
        rw [splitRN_append_nl (l0 ++ ['\r']) _ (by simp [hl0.2]),
            stripCr_append_cr] at hl
        rcases List.mem_cons.mp hl with h | h
        · subst h; exact hl0.1
        · exact ih hrest l h

/-- C6: the sudoers strip transformation is idempotent — applying it to the
result of a first (changing) application removes no further lines and
reports the no-change outcome (none). -/
theorem strip_idempotent (content : List Char) (user : String)
    (out : List Char) (h : stripUserEntriesPure content user = some out) :
    stripUserEntriesPure out user = none := by
  simp only [stripUserEntriesPure] at h
  by_cases hch : (toLines content).any (fun l => !(keepLine user l)) = true
  case neg =>
    rw [if_neg hch] at h
    exact absurd h (by simp)
  case pos =>
    rw [if_pos hch] at h
    have hout := Option.some_inj.mp h
    have hprops : ∀ l ∈ (toLines content).filter (keepLine user),
        keepLine user l = true ∧ '\n' ∉ l := by
      intro l hl
      refine ⟨List.of_mem_filter hl, ?_⟩
      exact no_nl_of_mem_splitRN content l
        (mem_toLines_of_mem content l (List.mem_of_mem_filter hl))
    have hall : ∀ l ∈ toLines out, keepLine user l = true := by
      intro l hl
      have hmem := mem_toLines_of_mem out l hl
      rw [← hout] at hmem
      exact rebuilt_all_keep user
        (if hasCRLF content then ['\r', '\n'] else ['\n'])
        (if content.getLast? = some '\n'
         then (if hasCRLF content then ['\r', '\n'] else ['\n']) else [])
        (by split <;> simp)
        (by split <;> simp)
        ((toLines content).filter (keepLine user)) hprops l hmem
    have hany : (toLines out).any (fun l => !(keepLine user l)) = false :=
      List.any_eq_false.mpr (fun x hx => by simp [hall x hx])
    simp only [stripUserEntriesPure, hany, Bool.false_eq_true, if_false]

/-- C3: the sudoers strip transformation (the keepLine characterization)
removes exactly the non-comment, non-blank lines whose first
whitespace-delimited token equals the target user; it rewrites only when at
least one line was removed; the rebuilt content is the kept lines in their
original order joined with the original newline style (CRLF when the file
contained CRLF, LF otherwise) with the original trailing-newline presence;
comment and blank lines are never removed; and the permission bits
(mode & 0o777) are preserved by the rewrite. -/
theorem stripUserEntries_spec (content : List Char) (user : String)
    (mode : Nat) :
    (∀ l : List Char, keepLine user l = false ↔
      (isCommentLine l = false ∧ isBlankLine l = false ∧
        firstToken l = user.data)) ∧
    (stripUserEntriesPure content user = none ↔
      ∀ l ∈ toLines content, keepLine user l = true) ∧
    (∀ out, stripUserEntriesPure content user = some out →
      out = joinWith (if hasCRLF content then ['\r', '\n'] else ['\n'])
              ((toLines content).filter (keepLine user)) ++
            (if content.getLast? = some '\n'
             then (if hasCRLF content then ['\r', '\n'] else ['\n'])
             else [])) ∧
    (∀ l ∈ toLines content,
      (isCommentLine l = true ∨ isBlankLine l = true) →
      l ∈ (toLines content).filter (keepLine user)) ∧
    (∀ out m2,
      stripUserEntriesFromFile (some (content, mode)) true user =
        some (out, m2) → m2 &&& 0o777 = mode &&& 0o777) := by
  refine ⟨?_, ⟨?_, ?_⟩, ?_, ?_, ?_⟩
  · intro l
    simp only [keepLine, isCommentLine, isBlankLine, firstToken]
    by_cases h1 : (l.dropWhile jsWs).head? = some '#'
    · simp [h1]
    · by_cases h2 : (l.dropWhile jsWs).isEmpty
      · simp [h1, h2]
      · simp [h1, h2]
  · intro hn l hl
    by_contra hk
    have hany : (toLines content).any (fun l => !(keepLine user l)) = true :=
      List.any_eq_true.mpr ⟨l, hl, by
        rw [Bool.not_eq_true] at hk
        simp [hk]⟩
    simp only [stripUserEntriesPure, hany, if_true] at hn
    exact absurd hn (by simp)
  · intro hall
    have hany : (toLines content).any (fun l => !(keepLine user l)) = false :=
      List.any_eq_false.mpr (fun x hx => by simp [hall x hx])
    simp only [stripUserEntriesPure, hany, Bool.false_eq_true, if_false]
  · intro out hout
    simp only [stripUserEntriesPure] at hout
    by_cases hch : (toLines content).any (fun l => !(keepLine user l)) = true
    · rw [if_pos hch] at hout
      exact (Option.some_inj.mp hout).symm
    · rw [if_neg hch] at hout
      exact absurd hout (by simp)
  · intro l hl hcb
    refine List.mem_filter.mpr ⟨hl, ?_⟩
    rcases hcb with hc | hb
    · rw [isCommentLine, decide_eq_true_eq] at hc
      simp [keepLine, hc]
    · rw [isBlankLine] at hb
      simp [keepLine, hb]
  · intro out m2 hm
    simp only [stripUserEntriesFromFile] at hm
    cases hp : stripUserEntriesPure content user with
    | none => rw [hp] at hm; exact absurd hm (by simp)
    | some rebuilt =>
      rw [hp] at hm
      simp only [if_true] at hm
      have h2 := ((Prod.mk.injEq _ _ _ _).mp (Option.some_inj.mp hm)).2
      rw [← h2, Nat.and_assoc, Nat.and_self]

/-- Witness for C3 at the specification fixture (with mode 0o440): the
rebuilt content is the comment and blank line joined with LF and a trailing
newline, and the permission bits are preserved. -/
theorem stripUserEntries_spec_witness :
    (("# alice backup rule\n\n").data =
      joinWith (if hasCRLF sudoersFixture then ['\r', '\n'] else ['\n'])
        ((toLines sudoersFixture).filter (keepLine "alice")) ++
      (if sudoersFixture.getLast? = some '\n'
       then (if hasCRLF sudoersFixture then ['\r', '\n'] else ['\n'])
       else [])) ∧
    0o440 &&& 0o777 = 0o440 &&& 0o777 :=
  ⟨(stripUserEntries_spec sudoersFixture "alice" 0o440).2.2.1
      (("# alice backup rule\n\n").data) (by decide),
   (stripUserEntries_spec sudoersFixture "alice" 0o440).2.2.2.2
      (("# alice backup rule\n\n").data) 0o440 (by decide)⟩

/-- Witness for C6 at the specification fixture: a second pass over the
stripped content reports no change. -/
theorem strip_idempotent_witness :
    stripUserEntriesPure (("# alice backup rule\n\n").data) "alice" = none :=
  strip_idempotent sudoersFixture "alice"
    (("# alice backup rule\n\n").data) (by decide)
